import Mathlib

/-!
Verification of the KafkaTrader order-book reconstruction core.

This file shallowly embeds the relevant parts of `src/OrderBook.py` and
`src/MarketDataService.py` (class `OrderbookManager`).  Python dictionaries
are modelled as insertion-ordered association lists with the dict operations
`dictLookup` (`d.get`), `dictInsert` (`d[k] = v`), `dictErase` (`d.pop`) and
`dictOfPairs` (a dict comprehension).  In-place mutation with exceptions is
modelled by state passing: each operation returns the pair of an
`Except PErr Unit` outcome and the state as it is at the moment of return or
raise, so a raised error leaves behind exactly the mutations performed before
the raise.  The Kafka producer is modelled as an optional message log
(`none` = not yet attached); `send_and_wait` appends to the log.
-/

namespace KafkaTrader

/-- The distinct `ValueError`/`KeyError` conditions raised by the code. -/
inductive PErr where
  | malformedMessage
  | missingSequence
  | sequenceGap
  | keyError
  | unknownMarket
  | invalidSide
  | negativeQuantity
  | missingDeltaFields
  | tickerRequired
deriving DecidableEq, Repr

/-- Association-list lookup, the model of Python `d.get(k)` (first match). -/
def dictLookup {κ α : Type} [DecidableEq κ] : List (κ × α) → κ → Option α
  | [], _ => none
  | (k', v) :: rest, k => if k' = k then some v else dictLookup rest k

/-- Association-list insert, the model of Python `d[k] = v`: an existing key
is overwritten in place, a new key is appended at the end. -/
def dictInsert {κ α : Type} [DecidableEq κ] : List (κ × α) → κ → α → List (κ × α)
  | [], k, v => [(k, v)]
  | (k', v') :: rest, k, v =>
    if k' = k then (k, v) :: rest else (k', v') :: dictInsert rest k v

/-- Association-list erase, the model of Python `d.pop(k, None)`. -/
def dictErase {κ α : Type} [DecidableEq κ] : List (κ × α) → κ → List (κ × α)
  | [], _ => []
  | (k', v) :: rest, k =>
    if k' = k then dictErase rest k else (k', v) :: dictErase rest k

/-- Build a dict from a list of pairs, the model of a dict comprehension
(`{k: v for k, v in l}`): later occurrences of a key overwrite earlier ones. -/
def dictOfPairs {κ α : Type} [DecidableEq κ] (l : List (κ × α)) : List (κ × α) :=
  l.foldl (fun acc pq => dictInsert acc pq.1 pq.2) []

/-- `PriceLevel` from `src/OrderBook.py`: an immutable (price, quantity) pair. -/
structure PriceLevel where
  price : Int
  quantity : Int
deriving DecidableEq, Repr

/-- A replication record as published to Kafka by `_publish_to_kafka`:
the full `{market_ticker, yes, no}` state. -/
structure RepRecord where
  market_ticker : String
  yes : List (Int × Int)
  no : List (Int × Int)
deriving DecidableEq, Repr

/-- The `OrderBook` state from `src/OrderBook.py`.  `producer = none` models
`self.producer is None`; `producer = some log` models an attached
`AIOKafkaProducer` whose sent messages are `log`. -/
structure OrderBook where
  ticker : String
  yes_levels : List (Int × Int)
  no_levels : List (Int × Int)
  best_yes : Option PriceLevel
  best_no : Option PriceLevel
  producer : Option (List RepRecord)
  pending_messages : List RepRecord
  should_publish : Bool
deriving DecidableEq, Repr

/-- The message payload (`msg` field): the union of the dict keys read by the
snapshot constructor (`market_ticker`, `yes`, `no`) and by the delta update
(`side`, `price`, `delta`).  Absent keys are `none` / `[]`. -/
structure Payload where
  market_ticker : Option String
  yes : List (Int × Int)
  no : List (Int × Int)
  side : Option String
  price : Option Int
  delta : Option Int
deriving DecidableEq, Repr

/-- A websocket envelope as read by `OrderbookManager.process_message`:
`type` (channel), `seq`, and `msg`. -/
structure Message where
  type : Option String
  seq : Option Int
  msg : Payload
deriving DecidableEq, Repr

/-- Largest key of an association list (`max(d.keys())`), `none` when empty. -/
def maxKey : List (Int × Int) → Option Int
  | [] => none
  | (p, _) :: rest =>
    match maxKey rest with
    | none => some p
    | some m => some (max p m)

/-- Smallest key of an association list (`min(d.keys())`), `none` when empty. -/
def minKey : List (Int × Int) → Option Int
  | [] => none
  | (p, _) :: rest =>
    match minKey rest with
    | none => some p
    | some m => some (min p m)

/-- The yes-side best computed by `_update_top_of_book`: the maximum price
with its quantity, or `none` when the side is empty. -/
def bestYesOf (l : List (Int × Int)) : Option PriceLevel :=
  match maxKey l with
  | none => none
  | some p => some ⟨p, (dictLookup l p).getD 0⟩

/-- The no-side best computed by `_update_top_of_book`: the minimum price
with its quantity, or `none` when the side is empty. -/
def bestNoOf (l : List (Int × Int)) : Option PriceLevel :=
  match minKey l with
  | none => none
  | some p => some ⟨p, (dictLookup l p).getD 0⟩

/-- `OrderBook._update_top_of_book`: recompute `best_yes` and `best_no`
from the current levels. -/
def updateTopOfBook (b : OrderBook) : OrderBook :=
  { b with best_yes := bestYesOf b.yes_levels, best_no := bestNoOf b.no_levels }

/-- The full-state record published when `_publish_to_kafka` is called with
no explicit dict. -/
def currentRecord (b : OrderBook) : RepRecord :=
  ⟨b.ticker, b.yes_levels, b.no_levels⟩

/-- `OrderBook._publish_to_kafka`: no-op when publishing is disabled; while
`producer` is `none` the record is appended to `_pending_messages`; once a
producer is attached the record is sent (appended to the producer log).
`r = none` models the `orderbook_dict=None` default, replaced by the current
full state (callers never pass an empty dict, so Python's `or` fallback
coincides with the `None` check). -/
def publishToKafka (b : OrderBook) (r : Option RepRecord) : OrderBook :=
  if b.should_publish = false then b
  else
    match b.producer with
    | none => { b with pending_messages := b.pending_messages ++ [r.getD (currentRecord b)] }
    | some log => { b with producer := some (log ++ [r.getD (currentRecord b)]) }

/-- `OrderBook.initialize_producer`: if publishing is enabled and no producer
exists, attach a producer (empty log), publish every pending message in
order, then clear the pending list. -/
def initProducer (b : OrderBook) : OrderBook :=
  if b.should_publish = true ∧ b.producer = none then
    let b1 : OrderBook := { b with producer := some [] }
    let b2 := b1.pending_messages.foldl (fun bb msg => publishToKafka bb (some msg)) b1
    { b2 with pending_messages := [] }
  else b

/-- `OrderBook.__init__` from a snapshot dict: requires `market_ticker`;
keeps only entries with positive quantity on each side (later duplicate
prices overwrite earlier ones, as in a dict comprehension); computes the
top of book; starts with no producer and no pending messages. -/
def mkOrderBook (d : Payload) (publish : Bool) : Except PErr OrderBook :=
  match d.market_ticker with
  | none => .error .tickerRequired
  | some t =>
    let yes := dictOfPairs (d.yes.filter (fun pq => 0 < pq.2))
    let no := dictOfPairs (d.no.filter (fun pq => 0 < pq.2))
    .ok (updateTopOfBook
      { ticker := t, yes_levels := yes, no_levels := no,
        best_yes := none, best_no := none,
        producer := none, pending_messages := [], should_publish := publish })

/-- `OrderBook._update_side`: rejects an invalid side; computes
`new_quantity = current + delta` with `current = 0` for an absent price;
removes the level when the new quantity is exactly `0`; raises
`NegativeQuantity` (before any mutation) when it is negative; otherwise
stores it; finally recomputes the top of book. -/
def updateSide (b : OrderBook) (side : String) (price delta : Int) :
    Except PErr Unit × OrderBook :=
  if side ≠ "yes" ∧ side ≠ "no" then (.error .invalidSide, b)
  else
    let levels := if side = "yes" then b.yes_levels else b.no_levels
    let current := (dictLookup levels price).getD 0
    let newQ := current + delta
    if newQ = 0 then
      let b1 := if side = "yes" then { b with yes_levels := dictErase b.yes_levels price }
                else { b with no_levels := dictErase b.no_levels price }
      (.ok (), updateTopOfBook b1)
    else if newQ < 0 then (.error .negativeQuantity, b)
    else
      let b1 := if side = "yes" then { b with yes_levels := dictInsert b.yes_levels price newQ }
                else { b with no_levels := dictInsert b.no_levels price newQ }
      (.ok (), updateTopOfBook b1)

/-- `OrderBook.update`: requires a truthy `side` and present `price` and
`delta` fields; applies `_update_side`; on success publishes the full state
to Kafka.  A raise from `_update_side` propagates with the book as mutated
so far. -/
def bookUpdate (b : OrderBook) (m : Payload) : Except PErr Unit × OrderBook :=
  if m.side.getD "" = "" ∨ m.price = none ∨ m.delta = none then
    (.error .missingDeltaFields, b)
  else
    match updateSide b (m.side.getD "") (m.price.getD 0) (m.delta.getD 0) with
    | (.error e, b1) => (.error e, b1)
    | (.ok _, b1) => (.ok (), publishToKafka b1 none)

/-- The consolidated view returned by `OrderBook.get_book`. -/
structure ConsolidatedBook where
  bids : List (Int × Int)
  offers : List (Int × Int)
deriving DecidableEq, Repr

/-- `OrderBook.get_book`: bids are the chosen side's levels; offers are the
opposite side's levels with each price `p` rekeyed to `100 - p`. -/
def getBook (b : OrderBook) (side : String) : ConsolidatedBook :=
  let yesBids := b.yes_levels
  let noBids := b.no_levels
  let bids := if side = "yes" then yesBids else noBids
  let altBids := if side = "yes" then noBids else yesBids
  { bids := bids, offers := altBids.map (fun pq => (100 - pq.1, pq.2)) }

/-- The `OrderbookManager` state: the ticker-keyed `orderbooks` dict and the
channel-keyed `sequence_numbers` dict. -/
structure MState where
  orderbooks : List (String × OrderBook)
  sequence_numbers : List (String × Int)
deriving DecidableEq, Repr

/-- The state built by `OrderbookManager.__init__`: no books and the three
channel counters initialised to the `-1` sentinel. -/
def initManager : MState :=
  { orderbooks := [],
    sequence_numbers :=
      [("orderbook_delta", -1), ("orderbook_snapshot", -1), ("trade", -1)] }

/-- `OrderbookManager._check_sequence`: a missing sequence number raises;
an unknown channel raises `KeyError`; otherwise the update is rejected as a
gap when the stored value is not the `-1` sentinel and the new value is not
its successor; an accepted value is recorded (a rejected one is not). -/
def checkSequence (s : MState) (channel : String) (seqNo : Option Int) :
    Except PErr Unit × MState :=
  match seqNo with
  | none => (.error .missingSequence, s)
  | some seq =>
    match dictLookup s.sequence_numbers channel with
    | none => (.error .keyError, s)
    | some lastSeq =>
      if lastSeq ≠ -1 ∧ seq ≠ lastSeq + 1 then (.error .sequenceGap, s)
      else (.ok (), { s with sequence_numbers := dictInsert s.sequence_numbers channel seq })

/-- `OrderbookManager._process_orderbook_snapshot`: build a fresh `OrderBook`
from the payload (publishing enabled), attach its producer, and register it
under the ticker, replacing any previous book. -/
def processOrderbookSnapshot (s : MState) (t : String) (d : Payload) :
    Except PErr Unit × MState :=
  match mkOrderBook d true with
  | .error e => (.error e, s)
  | .ok b =>
    (.ok (), { s with orderbooks := dictInsert s.orderbooks t (initProducer b) })

/-- `OrderbookManager._process_orderbook_delta`: raises `UnknownMarket` when
no snapshot has been seen for the ticker, otherwise applies
`OrderBook.update` to the registered book; the book object is mutated in
place, so even when `update` raises the book as mutated so far stays
registered. -/
def processOrderbookDelta (s : MState) (t : String) (d : Payload) :
    Except PErr Unit × MState :=
  match dictLookup s.orderbooks t with
  | none => (.error .unknownMarket, s)
  | some b =>
    let r := bookUpdate b d
    (r.1, { s with orderbooks := dictInsert s.orderbooks t r.2 })

/-- `OrderbookManager.process_message`: rejects a falsy channel type;
silently ignores any non-`subscribed` message whose payload lacks a
`market_ticker`; dispatches on the channel (`subscribed` and `ticker` are
control/no-ops, unknown channels are ignored); for `trade`,
`orderbook_snapshot` and `orderbook_delta` it applies the payload first and
runs `_check_sequence` only afterwards. -/
def processMessage (s : MState) (m : Message) : Except PErr Unit × MState :=
  match m.type with
  | none => (.error .malformedMessage, s)
  | some channel =>
    if channel = "" then (.error .malformedMessage, s)
    else
      let seqNo := m.seq
      let msgContent := m.msg
      let marketTicker := msgContent.market_ticker
      if marketTicker = none ∧ channel ≠ "subscribed" then (.ok (), s)
      else if channel = "subscribed" then (.ok (), s)
      else if channel = "ticker" then (.ok (), s)
      else if channel = "trade" then checkSequence s "trade" seqNo
      else if channel = "orderbook_snapshot" then
        match marketTicker with
        | none => (.ok (), s)
        | some t =>
          let r := processOrderbookSnapshot s t msgContent
          match r.1 with
          | .error e => (.error e, r.2)
          | .ok _ => checkSequence r.2 "orderbook_snapshot" seqNo
      else if channel = "orderbook_delta" then
        match marketTicker with
        | none => (.ok (), s)
        | some t =>
          let r := processOrderbookDelta s t msgContent
          match r.1 with
          | .error e => (.error e, r.2)
          | .ok _ => checkSequence r.2 "orderbook_delta" seqNo
      else (.ok (), s)

/-- All quantities stored in a levels dict are strictly positive. -/
def posLevels (l : List (Int × Int)) : Prop := ∀ pq ∈ l, 0 < pq.2

/-- The spec's quantity invariant: neither side of the book holds an entry
with quantity ≤ 0. -/
def posInv (b : OrderBook) : Prop := posLevels b.yes_levels ∧ posLevels b.no_levels

/-- The spec's best-of-book invariant: `best_yes` is exactly the entry of
`yes_levels` with the maximum price (absent iff the side is empty), and
`best_no` is exactly the entry of `no_levels` with the minimum price
(absent iff the side is empty). -/
def bestInv (b : OrderBook) : Prop :=
  (b.best_yes = none ↔ b.yes_levels = []) ∧
  (∀ pl, b.best_yes = some pl →
    dictLookup b.yes_levels pl.price = some pl.quantity ∧
    ∀ pq ∈ b.yes_levels, pq.1 ≤ pl.price) ∧
  (b.best_no = none ↔ b.no_levels = []) ∧
  (∀ pl, b.best_no = some pl →
    dictLookup b.no_levels pl.price = some pl.quantity ∧
    ∀ pq ∈ b.no_levels, pl.price ≤ pq.1)

/-- Sample snapshot payload (the spec's scenario `{yes:[[40,10]], no:[[55,20]]}`). -/
def exSnapPayload : Payload :=
  { market_ticker := some "T", yes := [(40, 10)], no := [(55, 20)],
    side := none, price := none, delta := none }

/-- The book built from `exSnapPayload` (before producer attachment). -/
def sampleBook : OrderBook :=
  { ticker := "T", yes_levels := [(40, 10)], no_levels := [(55, 20)],
    best_yes := some ⟨40, 10⟩, best_no := some ⟨55, 20⟩,
    producer := none, pending_messages := [], should_publish := true }

/-- Sample delta payload that would drive the yes level at 40 negative. -/
def exNegDelta : Payload :=
  { market_ticker := some "T", yes := [], no := [],
    side := some "yes", price := some 40, delta := some (-11) }

/-- Sample delta payload with zero delta at an absent price. -/
def exZeroDelta : Payload :=
  { market_ticker := some "T", yes := [], no := [],
    side := some "yes", price := some 41, delta := some 0 }

/-- Sample replication record. -/
def exRec : RepRecord := ⟨"T", [(40, 10)], [(55, 20)]⟩

/-- Snapshot envelope with sequence number 5. -/
def exMsg1 : Message := { type := some "orderbook_snapshot", seq := some 5, msg := exSnapPayload }

/-- Snapshot envelope with sequence number 9 (a gap after 5). -/
def exMsg2 : Message := { type := some "orderbook_snapshot", seq := some 9, msg := exSnapPayload }

/-- Manager state after processing `exMsg1` from the initial state. -/
def exState1 : MState := (processMessage initManager exMsg1).2

/-- Manager state whose `trade` counter has recorded sequence 5. -/
def exSeqState : MState :=
  { orderbooks := [],
    sequence_numbers := [("orderbook_delta", -1), ("orderbook_snapshot", -1), ("trade", 5)] }

/-- Envelope with no channel type. -/
def exNoTypeMsg : Message := { type := none, seq := some 1, msg := exSnapPayload }

/-- Snapshot envelope whose payload has no ticker. -/
def exNoTickerMsg : Message :=
  { type := some "orderbook_snapshot", seq := some 1,
    msg := { market_ticker := none, yes := [(40, 10)], no := [],
             side := none, price := none, delta := none } }

theorem dictLookup_dictInsert_self {κ α : Type} [DecidableEq κ]
    (l : List (κ × α)) (k : κ) (v : α) :
    dictLookup (dictInsert l k v) k = some v := by
  induction l with
  | nil => simp [dictInsert, dictLookup]
  | cons hd tl ih =>
    obtain ⟨k', v'⟩ := hd
    by_cases h : k' = k
    · simp [dictInsert, h, dictLookup]
    · simp [dictInsert, h, dictLookup, ih]

theorem dictErase_of_lookup_none {κ α : Type} [DecidableEq κ]
    (l : List (κ × α)) (k : κ) (h : dictLookup l k = none) :
    dictErase l k = l := by
  induction l with
  | nil => rfl
  | cons hd tl ih =>
    obtain ⟨k', v'⟩ := hd
    by_cases hk : k' = k
    · simp [dictLookup, hk] at h
    · simp only [dictLookup, if_neg hk] at h
      simp [dictErase, hk, ih h]

theorem mem_dictInsert {κ α : Type} [DecidableEq κ]
    (l : List (κ × α)) (k : κ) (v : α) (x : κ × α)
    (hx : x ∈ dictInsert l k v) : x ∈ l ∨ x = (k, v) := by
  induction l with
  | nil => simpa [dictInsert] using hx
  | cons hd tl ih =>
    obtain ⟨k', v'⟩ := hd
    by_cases h : k' = k
    · rw [dictInsert, if_pos h] at hx
      rcases List.mem_cons.1 hx with rfl | hmem
      · exact Or.inr rfl
      · exact Or.inl (List.mem_cons_of_mem _ hmem)
    · rw [dictInsert, if_neg h] at hx
      rcases List.mem_cons.1 hx with rfl | hmem
      · exact Or.inl (List.mem_cons_self _ _)
      · rcases ih hmem with h1 | h1
        · exact Or.inl (List.mem_cons_of_mem _ h1)
        · exact Or.inr h1

theorem mem_dictErase {κ α : Type} [DecidableEq κ]
    (l : List (κ × α)) (k : κ) (x : κ × α)
    (hx : x ∈ dictErase l k) : x ∈ l := by
  induction l with
  | nil => simp [dictErase] at hx
  | cons hd tl ih =>
    obtain ⟨k', v'⟩ := hd
    by_cases h : k' = k
    · rw [dictErase, if_pos h] at hx
      exact List.mem_cons_of_mem _ (ih hx)
    · rw [dictErase, if_neg h] at hx
      rcases List.mem_cons.1 hx with rfl | hmem
      · exact List.mem_cons_self _ _
      · exact List.mem_cons_of_mem _ (ih hmem)

theorem maxKey_eq_none_iff (l : List (Int × Int)) : maxKey l = none ↔ l = [] := by
  cases l with
  | nil => simp [maxKey]
  | cons hd tl =>
    obtain ⟨p, q⟩ := hd
    cases h : maxKey tl <;> simp [maxKey, h]

theorem minKey_eq_none_iff (l : List (Int × Int)) : minKey l = none ↔ l = [] := by
  cases l with
  | nil => simp [minKey]
  | cons hd tl =>
    obtain ⟨p, q⟩ := hd
    cases h : minKey tl <;> simp [minKey, h]

theorem maxKey_ge (l : List (Int × Int)) (m : Int) (h : maxKey l = some m) :
    ∀ pq ∈ l, pq.1 ≤ m := by
  induction l generalizing m with
  | nil => simp [maxKey] at h
  | cons hd tl ih =>
    obtain ⟨p, q⟩ := hd
    intro pq hpq
    cases htl : maxKey tl with
    | none =>
      rw [maxKey, htl] at h
      have hm : m = p := by simpa using h.symm
      have htl' : tl = [] := (maxKey_eq_none_iff tl).1 htl
      subst htl'
      rcases List.mem_cons.1 hpq with rfl | hmem
      · simp [hm]
      · simp at hmem
    | some m' =>
      rw [maxKey, htl] at h
      have hm : m = max p m' := by simpa using h.symm
      rcases List.mem_cons.1 hpq with rfl | hmem
      · simp [hm, le_max_left]
      · calc pq.1 ≤ m' := ih m' htl pq hmem
          _ ≤ m := hm ▸ le_max_right p m'

theorem minKey_le (l : List (Int × Int)) (m : Int) (h : minKey l = some m) :
    ∀ pq ∈ l, m ≤ pq.1 := by
  induction l generalizing m with
  | nil => simp [minKey] at h
  | cons hd tl ih =>
    obtain ⟨p, q⟩ := hd
    intro pq hpq
    cases htl : minKey tl with
    | none =>
      rw [minKey, htl] at h
      have hm : m = p := by simpa using h.symm
      have htl' : tl = [] := (minKey_eq_none_iff tl).1 htl
      subst htl'
      rcases List.mem_cons.1 hpq with rfl | hmem
      · simp [hm]
      · simp at hmem
    | some m' =>
      rw [minKey, htl] at h
      have hm : m = min p m' := by simpa using h.symm
      rcases List.mem_cons.1 hpq with rfl | hmem
      · simp [hm, min_le_left]
      · calc m ≤ m' := hm ▸ min_le_right p m'
          _ ≤ pq.1 := ih m' htl pq hmem

theorem maxKey_lookup_isSome (l : List (Int × Int)) (m : Int)
    (h : maxKey l = some m) : ∃ v, dictLookup l m = some v := by
  induction l generalizing m with
  | nil => simp [maxKey] at h
  | cons hd tl ih =>
    obtain ⟨p, q⟩ := hd
    cases htl : maxKey tl with
    | none =>
      rw [maxKey, htl] at h
      have hm : m = p := by simpa using h.symm
      exact ⟨q, by simp [dictLookup, hm]⟩
    | some m' =>
      rw [maxKey, htl] at h
      have hm : m = max p m' := by simpa using h.symm
      by_cases hp : p = m
      · exact ⟨q, by simp [dictLookup, hp]⟩
      · have hm' : m = m' := by
          rcases max_choice p m' with hc | hc
          · exact absurd (hm.trans hc).symm hp
          · exact hm.trans hc
        obtain ⟨v, hv⟩ := ih m (hm' ▸ htl)
        exact ⟨v, by simp [dictLookup, hp, hv]⟩

theorem minKey_lookup_isSome (l : List (Int × Int)) (m : Int)
    (h : minKey l = some m) : ∃ v, dictLookup l m = some v := by
  induction l generalizing m with
  | nil => simp [minKey] at h
  | cons hd tl ih =>
    obtain ⟨p, q⟩ := hd
    cases htl : minKey tl with
    | none =>
      rw [minKey, htl] at h
      have hm : m = p := by simpa using h.symm
      exact ⟨q, by simp [dictLookup, hm]⟩
    | some m' =>
      rw [minKey, htl] at h
      have hm : m = min p m' := by simpa using h.symm
      by_cases hp : p = m
      · exact ⟨q, by simp [dictLookup, hp]⟩
      · have hm' : m = m' := by
          rcases min_choice p m' with hc | hc
          · exact absurd (hm.trans hc).symm hp
          · exact hm.trans hc
        obtain ⟨v, hv⟩ := ih m (hm' ▸ htl)
        exact ⟨v, by simp [dictLookup, hp, hv]⟩

theorem bestYesOf_eq_none_iff (l : List (Int × Int)) : bestYesOf l = none ↔ l = [] := by
  unfold bestYesOf
  cases h : maxKey l with
  | none => simpa using (maxKey_eq_none_iff l).1 h
  | some p =>
    simp only []
    constructor
    · intro hc; cases hc
    · intro hl; rw [hl, maxKey] at h; cases h

theorem bestNoOf_eq_none_iff (l : List (Int × Int)) : bestNoOf l = none ↔ l = [] := by
  unfold bestNoOf
  cases h : minKey l with
  | none => simpa using (minKey_eq_none_iff l).1 h
  | some p =>
    simp only []
    constructor
    · intro hc; cases hc
    · intro hl; rw [hl, minKey] at h; cases h

theorem bestYesOf_spec (l : List (Int × Int)) (pl : PriceLevel)
    (h : bestYesOf l = some pl) :
    dictLookup l pl.price = some pl.quantity ∧ ∀ pq ∈ l, pq.1 ≤ pl.price := by
  unfold bestYesOf at h
  cases hm : maxKey l with
  | none => rw [hm] at h; cases h
  | some p =>
    rw [hm] at h
    obtain ⟨v, hv⟩ := maxKey_lookup_isSome l p hm
    have hpl : pl = ⟨p, v⟩ := by
      have := h.symm
      simp only [Option.some.injEq] at this
      rw [this, hv]
      rfl
    subst hpl
    exact ⟨hv, maxKey_ge l p hm⟩

theorem bestNoOf_spec (l : List (Int × Int)) (pl : PriceLevel)
    (h : bestNoOf l = some pl) :
    dictLookup l pl.price = some pl.quantity ∧ ∀ pq ∈ l, pl.price ≤ pq.1 := by
  unfold bestNoOf at h
  cases hm : minKey l with
  | none => rw [hm] at h; cases h
  | some p =>
    rw [hm] at h
    obtain ⟨v, hv⟩ := minKey_lookup_isSome l p hm
    have hpl : pl = ⟨p, v⟩ := by
      have := h.symm
      simp only [Option.some.injEq] at this
      rw [this, hv]
      rfl
    subst hpl
    exact ⟨hv, minKey_le l p hm⟩

theorem bestInv_updateTopOfBook (b : OrderBook) : bestInv (updateTopOfBook b) := by
  refine ⟨?_, ?_, ?_, ?_⟩
  · exact bestYesOf_eq_none_iff b.yes_levels
  · exact fun pl h => bestYesOf_spec b.yes_levels pl h
  · exact bestNoOf_eq_none_iff b.no_levels
  · exact fun pl h => bestNoOf_spec b.no_levels pl h

theorem publishToKafka_fields (b : OrderBook) (r : Option RepRecord) :
    (publishToKafka b r).ticker = b.ticker ∧
    (publishToKafka b r).yes_levels = b.yes_levels ∧
    (publishToKafka b r).no_levels = b.no_levels ∧
    (publishToKafka b r).best_yes = b.best_yes ∧
    (publishToKafka b r).best_no = b.best_no ∧
    (publishToKafka b r).should_publish = b.should_publish := by
  cases hs : b.should_publish <;> cases hp : b.producer <;>
    simp [publishToKafka, hs, hp]

theorem bestInv_publishToKafka (b : OrderBook) (r : Option RepRecord)
    (h : bestInv b) : bestInv (publishToKafka b r) := by
  obtain ⟨-, h2, h3, h4, h5, -⟩ := publishToKafka_fields b r
  exact ⟨by rw [h2, h4]; exact h.1, by rw [h2, h4]; exact h.2.1,
         by rw [h3, h5]; exact h.2.2.1, by rw [h3, h5]; exact h.2.2.2⟩

theorem posInv_publishToKafka (b : OrderBook) (r : Option RepRecord)
    (h : posInv b) : posInv (publishToKafka b r) := by
  obtain ⟨-, h2, h3, -, -, -⟩ := publishToKafka_fields b r
  exact ⟨by rw [h2]; exact h.1, by rw [h3]; exact h.2⟩

theorem foldl_dictInsert_pos (l acc : List (Int × Int))
    (hacc : ∀ pq ∈ acc, (0 : Int) < pq.2) (hl : ∀ pq ∈ l, (0 : Int) < pq.2) :
    ∀ pq ∈ l.foldl (fun a pq => dictInsert a pq.1 pq.2) acc, (0 : Int) < pq.2 := by
  induction l generalizing acc with
  | nil => simpa using hacc
  | cons hd tl ih =>
    intro pq hpq
    refine ih (dictInsert acc hd.1 hd.2) ?_ (fun x hx => hl x (List.mem_cons_of_mem _ hx)) pq hpq
    intro x hx
    rcases mem_dictInsert acc hd.1 hd.2 x hx with h1 | h1
    · exact hacc x h1
    · rw [h1]
      exact hl hd (List.mem_cons_self _ _)

theorem dictOfPairs_pos (l : List (Int × Int)) (hl : ∀ pq ∈ l, (0 : Int) < pq.2) :
    posLevels (dictOfPairs l) :=
  foldl_dictInsert_pos l [] (by simp) hl

theorem checkSequence_error_state (s : MState) (c : String) (q : Option Int)
    (e : PErr) (h : (checkSequence s c q).1 = .error e) :
    (checkSequence s c q).2 = s := by
  cases q with
  | none => rfl
  | some seq =>
    cases hl : dictLookup s.sequence_numbers c with
    | none => simp [checkSequence, hl]
    | some lastSeq =>
      by_cases hc : lastSeq ≠ -1 ∧ seq ≠ lastSeq + 1
      · simp [checkSequence, hl, hc]
      · simp [checkSequence, hl, hc] at h

theorem foldl_publish_producer (msgs : List RepRecord) (b : OrderBook)
    (log : List RepRecord) (hsp : b.should_publish = true)
    (hp : b.producer = some log) :
    (msgs.foldl (fun bb msg => publishToKafka bb (some msg)) b).producer =
      some (log ++ msgs) ∧
    (msgs.foldl (fun bb msg => publishToKafka bb (some msg)) b).should_publish = true := by
  induction msgs generalizing b log with
  | nil => simpa [hp]
  | cons m tl ih =>
    have hpub : publishToKafka b (some m) =
        { b with producer := some (log ++ [m]) } := by
      simp [publishToKafka, hsp, hp]
    rw [List.foldl_cons, hpub]
    have := ih { b with producer := some (log ++ [m]) } (log ++ [m]) hsp rfl
    simpa using this

theorem updateSide_ok_bestInv (b : OrderBook) (side : String) (p δ : Int)
    (hok : (updateSide b side p δ).1 = .ok ()) :
    bestInv (updateSide b side p δ).2 := by
  by_cases h1 : side ≠ "yes" ∧ side ≠ "no"
  · simp [updateSide, h1] at hok
  · by_cases h0 : (dictLookup (if side = "yes" then b.yes_levels else b.no_levels) p).getD 0 + δ = 0
    · simp only [updateSide, if_neg h1, if_pos h0]
      exact bestInv_updateTopOfBook _
    · by_cases h2 : (dictLookup (if side = "yes" then b.yes_levels else b.no_levels) p).getD 0 + δ < 0
      · simp [updateSide, h1, h0, h2] at hok
      · simp only [updateSide, if_neg h1, if_neg h0, if_neg h2]
        exact bestInv_updateTopOfBook _

theorem updateSide_posInv (b : OrderBook) (side : String) (p δ : Int)
    (hb : posInv b) (hok : (updateSide b side p δ).1 = .ok ()) :
    posInv (updateSide b side p δ).2 := by
  by_cases h1 : side ≠ "yes" ∧ side ≠ "no"
  · simp [updateSide, h1] at hok
  · by_cases hy : side = "yes"
    · subst hy
      by_cases h0 : (dictLookup b.yes_levels p).getD 0 + δ = 0
      · simp only [updateSide, h1, if_false, if_pos, h0, reduceIte]
        simp [updateSide, h0, updateTopOfBook, posInv]
        exact ⟨fun pq hpq => hb.1 pq (mem_dictErase _ _ _ hpq), hb.2⟩
      · by_cases h2 : (dictLookup b.yes_levels p).getD 0 + δ < 0
        · simp [updateSide, h0, h2] at hok
        · have hpos : (0 : Int) < (dictLookup b.yes_levels p).getD 0 + δ := by omega
          simp [updateSide, h0, h2, updateTopOfBook, posInv]
          refine ⟨fun pq hpq => ?_, hb.2⟩
          rcases mem_dictInsert _ _ _ pq hpq with h3 | h3
          · exact hb.1 pq h3
          · rw [h3]; exact hpos
    · have hn : side = "no" := by tauto
      subst hn
      by_cases h0 : (dictLookup b.no_levels p).getD 0 + δ = 0
      · simp [updateSide, h0, updateTopOfBook, posInv]
        exact ⟨hb.1, fun pq hpq => hb.2 pq (mem_dictErase _ _ _ hpq)⟩
      · by_cases h2 : (dictLookup b.no_levels p).getD 0 + δ < 0
        · simp [updateSide, h0, h2] at hok
        · have hpos : (0 : Int) < (dictLookup b.no_levels p).getD 0 + δ := by omega
          simp [updateSide, h0, h2, updateTopOfBook, posInv]
          refine ⟨hb.1, fun pq hpq => ?_⟩
          rcases mem_dictInsert _ _ _ pq hpq with h3 | h3
          · exact hb.2 pq h3
          · rw [h3]; exact hpos

theorem bookUpdate_ok (b : OrderBook) (m : Payload) (b1 : OrderBook)
    (h : bookUpdate b m = (.ok (), b1)) :
    ∃ b2, updateSide b (m.side.getD "") (m.price.getD 0) (m.delta.getD 0) = (.ok (), b2) ∧
      b1 = publishToKafka b2 none := by
  unfold bookUpdate at h
  by_cases hc : m.side.getD "" = "" ∨ m.price = none ∨ m.delta = none
  · rw [if_pos hc] at h
    simp at h
  · rw [if_neg hc] at h
    rcases hres : updateSide b (m.side.getD "") (m.price.getD 0) (m.delta.getD 0) with ⟨r, b2⟩
    rw [hres] at h
    cases r with
    | error e => simp at h
    | ok u =>
      cases u
      simp at h
      exact ⟨b2, rfl, h.symm⟩

theorem bookUpdate_no_gap (b : OrderBook) (m : Payload) :
    (bookUpdate b m).1 ≠ .error .sequenceGap := by
  unfold bookUpdate
  by_cases hc : m.side.getD "" = "" ∨ m.price = none ∨ m.delta = none
  · rw [if_pos hc]
    simp
  · rw [if_neg hc]
    rcases hres : updateSide b (m.side.getD "") (m.price.getD 0) (m.delta.getD 0) with ⟨r, b2⟩
    have hr : r = .ok () ∨ r = .error .invalidSide ∨ r = .error .negativeQuantity := by
      by_cases h1 : m.side.getD "" ≠ "yes" ∧ m.side.getD "" ≠ "no"
      · rw [updateSide, if_pos h1] at hres
        right; left
        exact congrArg Prod.fst hres.symm
      · by_cases h0 : (dictLookup (if m.side.getD "" = "yes" then b.yes_levels else b.no_levels) (m.price.getD 0)).getD 0 + m.delta.getD 0 = 0
        · rw [updateSide, if_neg h1] at hres
          simp only [if_pos h0] at hres
          left
          exact congrArg Prod.fst hres.symm
        · by_cases h2 : (dictLookup (if m.side.getD "" = "yes" then b.yes_levels else b.no_levels) (m.price.getD 0)).getD 0 + m.delta.getD 0 < 0
          · rw [updateSide, if_neg h1] at hres
            simp only [if_neg h0, if_pos h2] at hres
            right; right
            exact congrArg Prod.fst hres.symm
          · rw [updateSide, if_neg h1] at hres
            simp only [if_neg h0, if_neg h2] at hres
            left
            exact congrArg Prod.fst hres.symm
    rcases hr with rfl | rfl | rfl <;> simp

theorem dictLookup_complMap (l : List (Int × Int)) (x : Int) :
    dictLookup (l.map (fun pq => (100 - pq.1, pq.2))) (100 - x) = dictLookup l x := by
  induction l with
  | nil => rfl
  | cons hd tl ih =>
    obtain ⟨p, q⟩ := hd
    by_cases h : p = x
    · simp [dictLookup, h]
    · have h' : ¬(100 - p = 100 - x) := by omega
      simp [dictLookup, h, h', ih]

theorem complMap_complMap (l : List (Int × Int)) :
    (l.map (fun pq => (100 - pq.1, pq.2))).map (fun pq => (100 - pq.1, pq.2)) = l := by
  induction l with
  | nil => rfl
  | cons hd tl ih =>
    obtain ⟨p, q⟩ := hd
    simp only [List.map_cons, ih, List.cons.injEq, and_true]
    have hpp : 100 - (100 - p) = p := by omega
    rw [hpp]

theorem updateTopOfBook_eq_self (b : OrderBook)
    (h1 : b.best_yes = bestYesOf b.yes_levels)
    (h2 : b.best_no = bestNoOf b.no_levels) :
    updateTopOfBook b = b := by
  cases b with
  | mk tk yl nl bsy bsn pr pm sp =>
    simp only [updateTopOfBook] at h1 h2 ⊢
    simp_all

theorem initProducer_spec (b : OrderBook) (hsp : b.should_publish = true)
    (hp : b.producer = none) :
    (initProducer b).producer = some b.pending_messages ∧
    (initProducer b).pending_messages = [] ∧
    (initProducer b).should_publish = true := by
  unfold initProducer
  rw [if_pos ⟨hsp, hp⟩]
  have hbase := foldl_publish_producer b.pending_messages
    { b with producer := some [] } [] (by simpa) rfl
  exact ⟨hbase.1, rfl, hbase.2⟩

/-- Claim C2, counterexample: the claim's "thereafter a check with sequence s
succeeds iff s equals the last recorded value plus one" fails when the first
recorded value is `-1`: after recording first sequence `-1` on the `trade`
channel, a check with sequence `7` succeeds although `7 ≠ -1 + 1`. -/
theorem claim_C2_counterexample :
    (checkSequence initManager "trade" (some (-1))).1 = .ok () ∧
    dictLookup ((checkSequence initManager "trade" (some (-1))).2).sequence_numbers
      "trade" = some (-1) ∧
    (checkSequence ((checkSequence initManager "trade" (some (-1))).2) "trade"
      (some 7)).1 = .ok () ∧
    (7 : Int) ≠ -1 + 1 :=
  ⟨rfl, rfl, rfl, by decide⟩

/-- Claim C2 (amended): provided the recorded value for the channel is not the
`-1` unset sentinel, a check with sequence `q` succeeds iff `q = last + 1`,
recording `q` on success and leaving the recorded value unchanged on a
`SequenceGap` failure; when the recorded value is `-1` (the unset sentinel,
as in the initial state) any sequence number is accepted and recorded; a
check with an absent sequence number fails with `MissingSequence`. -/
theorem claim_C2_sequence_check (s : MState) (c : String) (last q : Int)
    (hl : dictLookup s.sequence_numbers c = some last) :
    (last = -1 → checkSequence s c (some q) =
      (.ok (), { s with sequence_numbers := dictInsert s.sequence_numbers c q })) ∧
    (last ≠ -1 → q = last + 1 → checkSequence s c (some q) =
      (.ok (), { s with sequence_numbers := dictInsert s.sequence_numbers c q })) ∧
    (last ≠ -1 → q ≠ last + 1 →
      checkSequence s c (some q) = (.error .sequenceGap, s)) ∧
    checkSequence s c none = (.error .missingSequence, s) := by
  refine ⟨?_, ?_, ?_, rfl⟩
  · intro h; simp [checkSequence, hl, h]
  · intro h1 h2; simp [checkSequence, hl, h1, h2]
  · intro h1 h2; simp [checkSequence, hl, h1, h2]

/-- Claim C2 witness: concrete `5, 7, 6` scenario on the `trade` channel with
`5` already recorded: `7` fails with a gap leaving the state unchanged, after
which `6` succeeds. -/
theorem claim_C2_witness :
    checkSequence exSeqState "trade" (some 7) = (.error .sequenceGap, exSeqState) ∧
    checkSequence exSeqState "trade" (some 6) =
      (.ok (), { exSeqState with
        sequence_numbers := dictInsert exSeqState.sequence_numbers "trade" 6 }) :=
  ⟨(claim_C2_sequence_check exSeqState "trade" 5 7 rfl).2.2.1 (by decide) (by decide),
   (claim_C2_sequence_check exSeqState "trade" 5 6 rfl).2.1 (by decide) (by decide)⟩

/-- Claim C9: when the recorded value for a channel is the `-1` sentinel (in
particular in the initial state, so for the first sequence-checked message),
a check carrying sequence `-1` is accepted and records `-1`; since `-1` is
also the unset sentinel, the immediately following check on that channel is
accepted with any sequence number whatsoever. -/
theorem claim_C9_sentinel_seq (s : MState) (c : String)
    (hl : dictLookup s.sequence_numbers c = some (-1)) :
    checkSequence s c (some (-1)) =
      (.ok (), { s with sequence_numbers := dictInsert s.sequence_numbers c (-1) }) ∧
    dictLookup (dictInsert s.sequence_numbers c (-1)) c = some (-1) ∧
    ∀ q : Int,
      (checkSequence
        { s with sequence_numbers := dictInsert s.sequence_numbers c (-1) }
        c (some q)).1 = .ok () := by
  refine ⟨by simp [checkSequence, hl], dictLookup_dictInsert_self _ _ _, fun q => ?_⟩
  simp [checkSequence, dictLookup_dictInsert_self]

/-- Claim C9 witness: from the initial manager state, sequence `-1` on the
`trade` channel is accepted, and then sequence `42` is also accepted. -/
theorem claim_C9_witness :
    (checkSequence
      { initManager with
        sequence_numbers := dictInsert initManager.sequence_numbers "trade" (-1) }
      "trade" (some 42)).1 = .ok () :=
  (claim_C9_sentinel_seq initManager "trade" rfl).2.2 42

/-- Claim C5: a delta whose resulting quantity would be negative
(`currentQuantity + delta < 0`, with current `0` for an absent price) fails
with `NegativeQuantity` and returns the book completely unchanged — levels,
best-of-book, producer log and pending replication buffer all retain their
prior values, so no replication record is emitted. -/
theorem claim_C5_negative_quantity (b : OrderBook) (m : Payload) (side : String)
    (p q : Int) (hside : m.side = some side) (hvalid : side = "yes" ∨ side = "no")
    (hp : m.price = some p) (hq : m.delta = some q)
    (hneg : (dictLookup (if side = "yes" then b.yes_levels else b.no_levels) p).getD 0
      + q < 0) :
    bookUpdate b m = (.error .negativeQuantity, b) := by
  have hs0 : m.side.getD "" = side := by rw [hside]; rfl
  have hne : ¬(m.side.getD "" = "" ∨ m.price = none ∨ m.delta = none) := by
    rcases hvalid with rfl | rfl <;> simp [hs0, hp, hq]
  rw [bookUpdate, if_neg hne]
  have h1 : ¬(side ≠ "yes" ∧ side ≠ "no") := by
    rcases hvalid with rfl | rfl <;> simp
  have h0 : ¬((dictLookup (if side = "yes" then b.yes_levels else b.no_levels) p).getD 0
      + q = 0) := by omega
  simp only [hs0, hp, hq, Option.getD_some]
  rw [updateSide, if_neg h1]
  simp only [if_neg h0, if_pos hneg]

/-- Claim C5 witness: on `sampleBook` (yes level `10@40`), a yes delta of
`-11` at price `40` fails with `NegativeQuantity` and leaves the book equal
to `sampleBook`. -/
theorem claim_C5_witness :
    bookUpdate sampleBook exNegDelta = (.error .negativeQuantity, sampleBook) :=
  claim_C5_negative_quantity sampleBook exNegDelta "yes" 40 (-11) rfl (Or.inl rfl)
    rfl rfl (by decide)

/-- Claim C10: a zero delta at a price absent from the chosen side succeeds,
leaves both level maps and both cached bests exactly unchanged (given the
cached bests match the levels, as they always do for books produced by the
code), and still emits a replication record of the unchanged state — to the
pending buffer when no producer is attached, to the producer log otherwise. -/
theorem claim_C10_zero_delta_noop (b : OrderBook) (m : Payload) (side : String)
    (p : Int) (hside : m.side = some side) (hvalid : side = "yes" ∨ side = "no")
    (hp : m.price = some p) (hq : m.delta = some 0)
    (habs : dictLookup (if side = "yes" then b.yes_levels else b.no_levels) p = none)
    (htop : b.best_yes = bestYesOf b.yes_levels ∧ b.best_no = bestNoOf b.no_levels) :
    bookUpdate b m = (.ok (), publishToKafka b none) ∧
    (publishToKafka b none).yes_levels = b.yes_levels ∧
    (publishToKafka b none).no_levels = b.no_levels ∧
    (publishToKafka b none).best_yes = b.best_yes ∧
    (publishToKafka b none).best_no = b.best_no ∧
    (b.should_publish = true → b.producer = none →
      (publishToKafka b none).pending_messages =
        b.pending_messages ++ [currentRecord b]) ∧
    (∀ log, b.should_publish = true → b.producer = some log →
      (publishToKafka b none).producer = some (log ++ [currentRecord b])) := by
  obtain ⟨-, hf2, hf3, hf4, hf5, -⟩ := publishToKafka_fields b none
  have hs0 : m.side.getD "" = side := by rw [hside]; rfl
  have hne : ¬(m.side.getD "" = "" ∨ m.price = none ∨ m.delta = none) := by
    rcases hvalid with rfl | rfl <;> simp [hs0, hp, hq]
  have hmain : bookUpdate b m = (.ok (), publishToKafka b none) := by
    rw [bookUpdate, if_neg hne]
    have h1 : ¬(side ≠ "yes" ∧ side ≠ "no") := by
      rcases hvalid with rfl | rfl <;> simp
    simp only [hs0, hp, hq, Option.getD_some]
    rw [updateSide, if_neg h1]
    have h0 : (dictLookup (if side = "yes" then b.yes_levels else b.no_levels) p).getD 0
        + 0 = 0 := by rw [habs]; rfl
    simp only [if_pos h0]
    have hbook : (if side = "yes"
        then { b with yes_levels := dictErase b.yes_levels p }
        else { b with no_levels := dictErase b.no_levels p }) = b := by
      rcases hvalid with rfl | rfl
      · rw [if_pos rfl, dictErase_of_lookup_none _ _ (by simpa using habs)]
      · rw [if_neg (by decide), dictErase_of_lookup_none _ _ (by simpa using habs)]
    rw [hbook, updateTopOfBook_eq_self b htop.1 htop.2]
  refine ⟨hmain, hf2, hf3, hf4, hf5, fun hsp hpr => ?_, fun log hsp hpr => ?_⟩
  · simp [publishToKafka, hsp, hpr]
  · simp [publishToKafka, hsp, hpr]

/-- Claim C10 witness: a yes delta of `0` at absent price `41` on `sampleBook`
succeeds and is exactly a publish of the unchanged state. -/
theorem claim_C10_witness :
    bookUpdate sampleBook exZeroDelta = (.ok (), publishToKafka sampleBook none) :=
  (claim_C10_zero_delta_noop sampleBook exZeroDelta "yes" 41 rfl (Or.inl rfl)
    rfl rfl rfl ⟨rfl, rfl⟩).1

/-- Claim C6: `get_book('yes')` returns bids equal to `yes_levels` and offers
mapping each no-side price `p` to key `100 - p` with the same quantity
(symmetrically for `'no'`); the transform is its own inverse, so re-applying
`price -> 100 - price` to the offers restores exactly the original
opposite-side levels.  `getBook` is a pure function of the book. -/
theorem claim_C6_consolidated_book (b : OrderBook) :
    (getBook b "yes").bids = b.yes_levels ∧
    (∀ p : Int, dictLookup (getBook b "yes").offers (100 - p) =
      dictLookup b.no_levels p) ∧
    (getBook b "yes").offers.map (fun pq => (100 - pq.1, pq.2)) = b.no_levels ∧
    (getBook b "no").bids = b.no_levels ∧
    (∀ p : Int, dictLookup (getBook b "no").offers (100 - p) =
      dictLookup b.yes_levels p) ∧
    (getBook b "no").offers.map (fun pq => (100 - pq.1, pq.2)) = b.yes_levels := by
  have hyes : getBook b "yes" =
      { bids := b.yes_levels,
        offers := b.no_levels.map (fun pq => (100 - pq.1, pq.2)) } := by
    simp [getBook]
  have hno : getBook b "no" =
      { bids := b.no_levels,
        offers := b.yes_levels.map (fun pq => (100 - pq.1, pq.2)) } := by
    simp [getBook]
  refine ⟨by rw [hyes], fun p => ?_, ?_, by rw [hno], fun p => ?_, ?_⟩
  · rw [hyes]; exact dictLookup_complMap _ _
  · rw [hyes]; exact complMap_complMap _
  · rw [hno]; exact dictLookup_complMap _ _
  · rw [hno]; exact complMap_complMap _

/-- Claim C8: while no producer is attached every published record is
appended to the pending buffer in order; attaching the producer flushes the
whole buffer, in original publish order, into the producer log and empties
the buffer; a record published after attachment is appended after all
flushed records.  Nothing is dropped or reordered. -/
theorem claim_C8_replication_buffering (b : OrderBook)
    (hsp : b.should_publish = true) (hpr : b.producer = none) :
    (∀ r, (publishToKafka b (some r)).pending_messages = b.pending_messages ++ [r] ∧
      (publishToKafka b (some r)).producer = none) ∧
    (publishToKafka b none).pending_messages =
      b.pending_messages ++ [currentRecord b] ∧
    (initProducer b).producer = some b.pending_messages ∧
    (initProducer b).pending_messages = [] ∧
    (∀ r, (publishToKafka (initProducer b) (some r)).producer =
      some (b.pending_messages ++ [r])) := by
  obtain ⟨hip1, hip2, hip3⟩ := initProducer_spec b hsp hpr
  refine ⟨fun r => ?_, ?_, hip1, hip2, fun r => ?_⟩
  · simp [publishToKafka, hsp, hpr]
  · simp [publishToKafka, hsp, hpr]
  · simp [publishToKafka, hip1, hip3]

/-- Claim C8 witness: publishing a record on `sampleBook` (no producer)
buffers it, and attaching the producer flushes the pending buffer into the
producer log. -/
theorem claim_C8_witness :
    (publishToKafka sampleBook (some exRec)).pending_messages =
      sampleBook.pending_messages ++ [exRec] ∧
    (initProducer sampleBook).producer = some sampleBook.pending_messages :=
  ⟨((claim_C8_replication_buffering sampleBook rfl rfl).1 exRec).1,
   (claim_C8_replication_buffering sampleBook rfl rfl).2.2.1⟩

/-- Claim C3: after every `OrderBook` construction from a snapshot and after
every successfully applied delta, `best_yes` is exactly the maximum-price
entry of `yes_levels` and `best_no` the minimum-price entry of `no_levels`,
each absent iff the respective side is empty (the cached best-of-book is
never stale). -/
theorem claim_C3_best_of_book :
    (∀ (d : Payload) (pub : Bool) (b : OrderBook),
      mkOrderBook d pub = .ok b → bestInv b) ∧
    (∀ (b : OrderBook) (m : Payload) (b1 : OrderBook),
      bookUpdate b m = (.ok (), b1) → bestInv b1) := by
  constructor
  · intro d pub b h
    unfold mkOrderBook at h
    cases hd : d.market_ticker with
    | none => rw [hd] at h; cases h
    | some t =>
      rw [hd] at h
      simp only [Except.ok.injEq] at h
      rw [← h]
      exact bestInv_updateTopOfBook _
  · intro b m b1 h
    obtain ⟨b2, h2, rfl⟩ := bookUpdate_ok b m b1 h
    have hb2 : bestInv b2 := by
      have hub := updateSide_ok_bestInv b (m.side.getD "") (m.price.getD 0)
        (m.delta.getD 0) (by rw [h2])
      rwa [h2] at hub
    exact bestInv_publishToKafka _ _ hb2

/-- Claim C3 witness: the book built from the sample snapshot satisfies the
best-of-book invariant. -/
theorem claim_C3_witness : bestInv sampleBook :=
  claim_C3_best_of_book.1 exSnapPayload true sampleBook rfl

/-- Claim C4: neither side of the book ever stores an entry with quantity
≤ 0: snapshot ingestion drops every pair with non-positive quantity, and a
successfully applied delta preserves the positivity invariant (a level whose
quantity reaches exactly 0 is removed rather than stored). -/
theorem claim_C4_positive_quantities :
    (∀ (d : Payload) (pub : Bool) (b : OrderBook),
      mkOrderBook d pub = .ok b → posInv b) ∧
    (∀ (b : OrderBook) (m : Payload) (b1 : OrderBook),
      posInv b → bookUpdate b m = (.ok (), b1) → posInv b1) := by
  constructor
  · intro d pub b h
    unfold mkOrderBook at h
    cases hd : d.market_ticker with
    | none => rw [hd] at h; cases h
    | some t =>
      rw [hd] at h
      simp only [Except.ok.injEq] at h
      rw [← h]
      refine ⟨?_, ?_⟩
      · refine dictOfPairs_pos _ ?_
        intro pq hpq
        exact of_decide_eq_true (List.mem_filter.1 hpq).2
      · refine dictOfPairs_pos _ ?_
        intro pq hpq
        exact of_decide_eq_true (List.mem_filter.1 hpq).2
  · intro b m b1 hb h
    obtain ⟨b2, h2, rfl⟩ := bookUpdate_ok b m b1 h
    have hb2 : posInv b2 := by
      have hup := updateSide_posInv b (m.side.getD "") (m.price.getD 0)
        (m.delta.getD 0) hb (by rw [h2])
      rwa [h2] at hup
    exact posInv_publishToKafka _ _ hb2

/-- Claim C4 witness: the book built from the sample snapshot satisfies the
positivity invariant. -/
theorem claim_C4_witness : posInv sampleBook :=
  claim_C4_positive_quantities.1 exSnapPayload true sampleBook rfl

/-- Claim C7, counterexample: an `orderbook_snapshot` message whose payload
has no ticker does NOT fail with `MalformedMessage` as the claim states — it
is silently ignored: `process_message` returns successfully with the manager
state unchanged. -/
theorem claim_C7_counterexample :
    processMessage initManager exNoTickerMsg = (.ok (), initManager) ∧
    ∀ e : PErr, (processMessage initManager exNoTickerMsg).1 ≠ .error e := by
  refine ⟨rfl, fun e h => ?_⟩
  have h' : (Except.ok () : Except PErr Unit) = .error e := h
  cases h'

/-- Claim C7 (amended): a message with no channel type (or an empty one)
fails with `MalformedMessage`; an `orderbook_snapshot` or `orderbook_delta`
message whose payload has no ticker is silently ignored — `process_message`
returns without error and without any state change. -/
theorem claim_C7_missing_required (s : MState) (m : Message) :
    (m.type = none → processMessage s m = (.error .malformedMessage, s)) ∧
    (m.type = some "" → processMessage s m = (.error .malformedMessage, s)) ∧
    ((m.type = some "orderbook_snapshot" ∨ m.type = some "orderbook_delta") →
      m.msg.market_ticker = none → processMessage s m = (.ok (), s)) := by
  refine ⟨fun h => by simp [processMessage, h],
    fun h => by simp [processMessage, h], fun h1 h2 => ?_⟩
  rcases h1 with h1 | h1 <;> simp [processMessage, h1, h2]

/-- Claim C7 witness: a message with no channel type fails with
`MalformedMessage`; a snapshot message with no ticker is accepted with no
state change. -/
theorem claim_C7_witness :
    processMessage initManager exNoTypeMsg = (.error .malformedMessage, initManager) ∧
    processMessage initManager exNoTickerMsg = (.ok (), initManager) :=
  ⟨(claim_C7_missing_required initManager exNoTypeMsg).1 rfl,
   (claim_C7_missing_required initManager exNoTickerMsg).2.2 (Or.inl rfl) rfl⟩

/-- Claim C1: when `process_message` on an `orderbook_snapshot` or
`orderbook_delta` message fails with `SequenceGap`, the payload had already
been applied successfully — the final manager state is exactly the state
produced by the payload-application step (the error does not roll it back),
so the sequence check ran only after successful application. -/
theorem claim_C1_gap_after_apply (s : MState) (m : Message) (c : String)
    (hc : m.type = some c)
    (hch : c = "orderbook_snapshot" ∨ c = "orderbook_delta")
    (hgap : (processMessage s m).1 = .error .sequenceGap) :
    ∃ t, m.msg.market_ticker = some t ∧
      (if c = "orderbook_snapshot" then processOrderbookSnapshot s t m.msg
       else processOrderbookDelta s t m.msg) = (.ok (), (processMessage s m).2) := by
  rcases hch with rfl | rfl
  · cases hmt : m.msg.market_ticker with
    | none =>
      have hok : processMessage s m = (.ok (), s) := by
        simp [processMessage, hc, hmt]
      rw [hok] at hgap
      cases hgap
    | some t =>
      refine ⟨t, rfl, ?_⟩
      cases hmk : mkOrderBook m.msg true with
      | error e => simp [mkOrderBook, hmt] at hmk
      | ok bk =>
        have hsnap : processOrderbookSnapshot s t m.msg =
            (.ok (), { s with
              orderbooks := dictInsert s.orderbooks t (initProducer bk) }) := by
          simp [processOrderbookSnapshot, hmk]
        have hpm : processMessage s m =
            checkSequence
              { s with orderbooks := dictInsert s.orderbooks t (initProducer bk) }
              "orderbook_snapshot" m.seq := by
          simp [processMessage, hc, hmt, hsnap]
        rw [hpm] at hgap
        have hstate := checkSequence_error_state _ _ _ _ hgap
        rw [if_pos rfl, hpm, hstate, hsnap]
  · cases hmt : m.msg.market_ticker with
    | none =>
      have hok : processMessage s m = (.ok (), s) := by
        simp [processMessage, hc, hmt]
      rw [hok] at hgap
      cases hgap
    | some t =>
      refine ⟨t, rfl, ?_⟩
      cases hlb : dictLookup s.orderbooks t with
      | none =>
        have hpd : processOrderbookDelta s t m.msg = (.error .unknownMarket, s) := by
          simp [processOrderbookDelta, hlb]
        have hpm : processMessage s m = (.error .unknownMarket, s) := by
          simp [processMessage, hc, hmt, hpd]
        rw [hpm] at hgap
        simp at hgap
      | some bk =>
        rcases hbu : bookUpdate bk m.msg with ⟨r, b2⟩
        cases r with
        | error e =>
          have hpd : processOrderbookDelta s t m.msg =
              (.error e, { s with orderbooks := dictInsert s.orderbooks t b2 }) := by
            simp [processOrderbookDelta, hlb, hbu]
          have hpm : processMessage s m =
              (.error e, { s with orderbooks := dictInsert s.orderbooks t b2 }) := by
            simp [processMessage, hc, hmt, hpd]
          rw [hpm] at hgap
          have he : e = .sequenceGap := by simpa using hgap
          subst he
          have hbu1 : (bookUpdate bk m.msg).1 = .error .sequenceGap := by rw [hbu]
          exact absurd hbu1 (bookUpdate_no_gap bk m.msg)
        | ok u =>
          cases u
          have hpd : processOrderbookDelta s t m.msg =
              (.ok (), { s with orderbooks := dictInsert s.orderbooks t b2 }) := by
            simp [processOrderbookDelta, hlb, hbu]
          have hpm : processMessage s m =
              checkSequence { s with orderbooks := dictInsert s.orderbooks t b2 }
                "orderbook_delta" m.seq := by
            simp [processMessage, hc, hmt, hpd]
          rw [hpm] at hgap
          have hstate := checkSequence_error_state _ _ _ _ hgap
          rw [if_neg (by decide), hpm, hstate, hpd]

/-- Claim C1 witness: after a snapshot with sequence 5, a snapshot with
sequence 9 fails the sequence check with a gap, yet the manager state equals
the state in which the second snapshot was already applied. -/
theorem claim_C1_witness :
    ∃ t, exMsg2.msg.market_ticker = some t ∧
      processOrderbookSnapshot exState1 t exMsg2.msg =
        (.ok (), (processMessage exState1 exMsg2).2) :=
  claim_C1_gap_after_apply exState1 exMsg2 "orderbook_snapshot" rfl (Or.inl rfl) rfl

end KafkaTrader
